import Mathlib

/-!  Verification development for the PPF_AutoDoc documentation tool
(`dx_doc_tool.py`).  The filesystem is modelled explicitly: paths are lists
of name components, file contents distinguish ZIP containers from other
data, and every operation threads the filesystem state, carrying it also on
the error path (matching Python exception semantics, where side effects
performed before a raise persist). -/

/-- A filesystem path, as its list of name components. -/
abbrev FPath := List String

/-- A JSON-like Python value, as produced by `json.load`.  Numbers are
modelled as integers. -/
inductive JVal where
  | null
  | bool (b : Bool)
  | num (n : Int)
  | str (s : String)
  | arr (xs : List JVal)
  | obj (kvs : List (String × JVal))

/-- Python truthiness of a `JVal`. -/
def JVal.truthy : JVal → Bool
  | .null => false
  | .bool b => b
  | .num n => n != 0
  | .str s => !s.isEmpty
  | .arr xs => !xs.isEmpty
  | .obj kvs => !kvs.isEmpty

/-- Python `str(v)` for the scalar values that reach f-string interpolation
in the source (`None` prints as `None`).  The tool never interpolates
containers in practice; they render as fixed markers here. -/
def JVal.pyStr : JVal → String
  | .null => "None"
  | .bool true => "True"
  | .bool false => "False"
  | .num n => toString n
  | .str s => s
  | .arr _ => "<list>"
  | .obj _ => "<dict>"

/-- Python `", ".join(v)` as applied to the `Choices` attribute: joins an
array of strings; iterating a string joins its characters, as in Python. -/
def joinComma : JVal → String
  | .arr xs => String.intercalate ", " (xs.map JVal.pyStr)
  | .str s => String.intercalate ", " (s.data.map String.singleton)
  | _ => ""

/-- Contents of a file on disk.  `zip` is a valid ZIP container holding
named entries; every other constructor is data that `zipfile.ZipFile`
rejects with `BadZipFile`. -/
inductive Content where
  | text (s : String)
  | json (v : JVal)
  | csv (rows : List (List JVal))
  | zip (entries : List (FPath × Content))

instance : Inhabited JVal := ⟨JVal.null⟩

instance : Inhabited Content := ⟨Content.text ""⟩

/-- A filesystem: an association list of files (path to content) and a list
of explicitly created directories.  A directory also exists implicitly when
a file or directory lives strictly below it. -/
structure FS where
  files : List (FPath × Content)
  dirs : List FPath

def FS.lookupFile (fs : FS) (p : FPath) : Option Content :=
  List.lookup p fs.files

def FS.fileExists (fs : FS) (p : FPath) : Bool :=
  (fs.lookupFile p).isSome

def FS.dirExists (fs : FS) (p : FPath) : Bool :=
  fs.dirs.contains p
    || fs.files.any (fun e => p.isPrefixOf e.1 && p.length < e.1.length)
    || fs.dirs.any (fun d => p.isPrefixOf d && p.length < d.length)

/-- Model of `os.path.exists`. -/
def FS.pathExists (fs : FS) (p : FPath) : Bool :=
  fs.fileExists p || fs.dirExists p

/-- Insert or overwrite a binding in a file association list. -/
def insertFile (l : List (FPath × Content)) (p : FPath) (c : Content) :
    List (FPath × Content) :=
  (p, c) :: l.filter (fun e => e.1 != p)

/-- Write a file, overwriting any previous content. -/
def FS.setFile (fs : FS) (p : FPath) (c : Content) : FS :=
  { fs with files := insertFile fs.files p c }

/-- Model of `os.remove`. -/
def FS.removeFile (fs : FS) (p : FPath) : FS :=
  { fs with files := fs.files.filter (fun e => e.1 != p) }

/-- Create one directory if it does not already exist. -/
def FS.addDir (fs : FS) (p : FPath) : FS :=
  if fs.dirExists p then fs else { fs with dirs := p :: fs.dirs }

/-- Render a path the way the Python source shows it in messages. -/
def pathStr (p : FPath) : String := String.intercalate "/" p

/-- Python exceptions raised by the modelled operations. -/
inductive PyErr where
  | fileNotFound (msg : String)
  | notADirectory (p : FPath)
  | isADirectory (p : FPath)
  | badZipFile

/-- The nonempty component prefixes of a path, shortest first. -/
def pathPrefixes (p : FPath) : List FPath :=
  (List.range p.length).map (fun k => p.take (k + 1))

/-- Walk the prefixes, creating each missing directory; a prefix occupied by
a file raises, keeping the directories already created (as `os.makedirs`
with `exist_ok=True` does). -/
def makedirsGo (fs : FS) : List FPath → Except (PyErr × FS) FS
  | [] => .ok fs
  | q :: rest =>
    if fs.fileExists q then .error (.notADirectory q, fs)
    else makedirsGo (fs.addDir q) rest

/-- Model of `os.makedirs(p, exist_ok=True)`. -/
def FS.makedirs (fs : FS) (p : FPath) : Except (PyErr × FS) FS :=
  makedirsGo fs (pathPrefixes p)

/-- Model of opening `zipfile.ZipFile(p, "r")`: a non-`zip` content raises
`BadZipFile`. -/
def FS.openZip (fs : FS) (p : FPath) : Except PyErr (List (FPath × Content)) :=
  match fs.lookupFile p with
  | some (.zip es) => .ok es
  | some _ => .error .badZipFile
  | none =>
    if fs.dirExists p then .error (.isADirectory p)
    else .error (.fileNotFound (pathStr p))

/-- Model of `ZipFile.extractall`: write every entry below `dest`,
overwriting colliding paths, deleting nothing else. -/
def FS.extractAll (fs : FS) (dest : FPath) (es : List (FPath × Content)) : FS :=
  es.foldl (fun acc e => acc.setFile (dest ++ e.1) e.2) fs

/-- Model of `shutil.copy`. -/
def FS.copyFile (fs : FS) (src dst : FPath) : Except PyErr FS :=
  match fs.lookupFile src with
  | some c => .ok (fs.setFile dst c)
  | none => .error (.fileNotFound (pathStr src))

/-- Immediate child names of a directory. -/
def FS.childNames (fs : FS) (d : FPath) : List String :=
  ((fs.files.map (·.1) ++ fs.dirs).filterMap (fun p =>
    if d.isPrefixOf p then (p.drop d.length).head? else none)).eraseDups

/-- Model of `os.listdir`. -/
def FS.listdir (fs : FS) (d : FPath) : Except PyErr (List String) :=
  if fs.fileExists d then .error (.notADirectory d)
  else if fs.dirExists d then .ok (fs.childNames d)
  else .error (.fileNotFound (pathStr d))

/-- Python `str.endswith`. -/
def strEndsWith (s suf : String) : Bool := suf.data.isSuffixOf s.data

/-- Python `os.path.splitext(s)[0]` for a bare file name: cut at the last
dot, unless every character before that dot is itself a dot. -/
def splitextRoot (s : String) : String :=
  match s.data.reverse.findIdx? (· == '.') with
  | none => s
  | some ri =>
    let di := s.data.length - 1 - ri
    if (s.data.take di).all (· == '.') then s else ⟨s.data.take di⟩

/-- Destination folder name for one embedded `.msapp` entry
(`f"{app_name}_extracted"` in the source). -/
def extractDirName (file : String) : String := splitextRoot file ++ "_extracted"

/-- Body of the per-entry loop of `unzip_solution` (source lines 38-57):
create the `_extracted` folder, copy the `.msapp` beside itself with an
added `.zip` suffix, extract that temporary copy, swallowing only
`BadZipFile`, and always remove the temporary afterwards (the `finally`
block).  Entries not ending in `.msapp` are untouched. -/
def processMsapp (canvas : FPath) (fs : FS) (file : String) :
    Except (PyErr × FS) FS :=
  if strEndsWith file ".msapp" then
    let msapp_path := canvas ++ [file]
    let app_extract_dir := canvas ++ [extractDirName file]
    match fs.makedirs app_extract_dir with
    | .error e => .error e
    | .ok fs1 =>
      let temp_zip := canvas ++ [file ++ ".zip"]
      match fs1.copyFile msapp_path temp_zip with
      | .error e => .error (e, fs1)
      | .ok fs2 =>
        match fs2.openZip temp_zip with
        | .ok es => .ok ((fs2.extractAll app_extract_dir es).removeFile temp_zip)
        | .error .badZipFile => .ok (fs2.removeFile temp_zip)
        | .error e => .error (e, fs2.removeFile temp_zip)
  else .ok fs

/-- The `for file in os.listdir(canvas_dir)` loop of `unzip_solution`. -/
def processEntries (canvas : FPath) (fs : FS) :
    List String → Except (PyErr × FS) FS
  | [] => .ok fs
  | f :: rest =>
    match processMsapp canvas fs f with
    | .error e => .error e
    | .ok fs1 => processEntries canvas fs1 rest

/-- Model of `unzip_solution` (source lines 16-59). -/
def unzip_solution (fs : FS) (zip_path output_root : FPath) :
    Except (PyErr × FS) (FPath × FS) :=
  if fs.pathExists zip_path then
    let solution_dir := output_root ++ ["solution"]
    match fs.makedirs solution_dir with
    | .error e => .error e
    | .ok fs1 =>
      match fs1.openZip zip_path with
      | .error e => .error (e, fs1)
      | .ok entries =>
        let fs2 := fs1.extractAll solution_dir entries
        let canvas_dir := solution_dir ++ ["CanvasApps"]
        if fs2.pathExists canvas_dir then
          match fs2.listdir canvas_dir with
          | .error e => .error (e, fs2)
          | .ok names =>
            match processEntries canvas_dir fs2 names with
            | .error e => .error e
            | .ok fs3 => .ok (solution_dir, fs3)
        else .ok (solution_dir, fs2)
  else
    .error (.fileNotFound ("ソリューションZipが見つかりません: " ++ pathStr zip_path), fs)

/-- One SharePoint field descriptor, as a JSON object's key-value list. -/
abbrev SPField := List (String × JVal)

/-- Python `col.get(k)`, with an absent key giving `None`. -/
def dget (col : SPField) (k : String) : JVal :=
  (List.lookup k col).getD JVal.null

/-- Python `a or b`. -/
def pyor (a b : JVal) : JVal := if a.truthy then a else b

/-- One CSV data row of `export_sp_list_to_csv` (source lines 142-173). -/
def field_row (col : SPField) : List JVal :=
  let title := pyor (dget col "Title") (pyor (dget col "DisplayName") (.str ""))
  let internal_name := pyor (dget col "InternalName") (.str "")
  let type_str := pyor (dget col "TypeAsString") (pyor (dget col "TypeDisplayName") (.str ""))
  let required := dget col "Required"
  let desc := pyor (dget col "Description") (.str "")
  let defaultv := pyor (dget col "DefaultValue") (.str "")
  let choicesPart : List String :=
    match List.lookup "Choices" col with
    | some v => if v.truthy then ["Choices: " ++ joinComma v] else []
    | none => []
  let lookupPart : List String :=
    let lookup_list := dget col "LookupList"
    let lookup_field := dget col "LookupField"
    if lookup_list.truthy || lookup_field.truthy then
      ["Lookup: List=" ++ lookup_list.pyStr ++ ", Field=" ++ lookup_field.pyStr]
    else []
  let extra_str := String.intercalate " | " (choicesPart ++ lookupPart)
  [title, internal_name, type_str, required, desc, defaultv, .str extra_str]

/-- The fixed CSV header row. -/
def csvHeader : List JVal :=
  [.str "表示名", .str "内部名", .str "型", .str "必須", .str "説明",
   .str "DefaultValue", .str "その他"]

/-- Python `list_name.replace("/", "_").replace("\\", "_")`. -/
def sanitizeListName (s : String) : String :=
  ⟨s.data.map (fun ch => if ch == '/' || ch == '\\' then '_' else ch)⟩

/-- Model of `export_sp_list_to_csv` (source lines 120-175). -/
def export_sp_list_to_csv (fs : FS) (fields : List SPField)
    (output_root : FPath) (list_name : String) :
    Except (PyErr × FS) (FPath × FPath × FS) :=
  let sp_dir := output_root ++ ["sharepoint"]
  match fs.makedirs sp_dir with
  | .error e => .error e
  | .ok fs1 =>
    let safe := sanitizeListName list_name
    let csv_path := sp_dir ++ [safe ++ "_fields.csv"]
    let json_path := sp_dir ++ [safe ++ "_fields.json"]
    let fs2 := fs1.setFile json_path (.json (.arr (fields.map JVal.obj)))
    let fs3 := fs2.setFile csv_path (.csv (csvHeader :: fields.map field_row))
    .ok (csv_path, json_path, fs3)

/-- The result normalization at the end of `get_sp_list_columns` (source
lines 113-117): a single JSON object is wrapped into a one-element list;
everything else is returned unchanged. -/
def get_sp_list_columns_normalize (data : JVal) : JVal :=
  match data with
  | .obj kvs => .arr [.obj kvs]
  | other => other

/-- The prompt lines built by `generate_gpt_prompt` (source lines 196-241). -/
def gpt_prompt_lines (has_solution has_sp : Bool) (solution_dir sp_dir : FPath) :
    List String :=
  ["あなたはプロのシステム設計書エンジニアです。",
   "以下のファイルやフォルダに含まれる情報を使って、PowerPlatform ＋ SharePoint の設計書を作成してください。",
   "",
   "▼ 分析対象となるファイル・フォルダの場所（ローカルパス）"]
  ++ (if has_solution then
        ["- PowerPlatform ソリューション展開フォルダ: " ++ pathStr solution_dir,
         "  - CanvasApps 配下の *_extracted フォルダ内 Controls.json / Properties.json",
         "  - Workflows フォルダ内の Flow 定義 (JSON)",
         "  - customizations.xml に含まれる Dataverse テーブル定義"]
      else
        ["- (solution フォルダがまだ生成されていません)"])
  ++ (if has_sp then
        ["- SharePoint リスト設計書フォルダ: " ++ pathStr sp_dir,
         "  - *_fields.csv : 各リストの列設計書",
         "  - *_fields.json : 生のフィールド情報（必要に応じて参照）"]
      else
        ["- (sharepoint フォルダがまだ生成されていません)"])
  ++ ["",
      "▼ 出力してほしいドキュメント",
      "【1】Canvas Apps 画面設計書",
      "- 画面一覧（画面名・用途）",
      "- 各画面に配置されている主要コントロール一覧（Button, Gallery など）",
      "- 各コントロールの主なイベント（OnSelect, Items, Visible など）とその役割",
      "- グローバル変数(Set)・コンテキスト変数(UpdateContext)・コレクション(ClearCollect)の一覧と用途",
      "",
      "【2】Power Automate フロー設計書",
      "- 各フローごとに、トリガー・アクション・条件分岐・ループ処理の概要",
      "- どの Canvas App から呼ばれているか、その関係性",
      "",
      "【3】Dataverse テーブル設計書",
      "- テーブル一覧",
      "- 各テーブルの列（表示名・スキーマ名・型・必須・説明）",
      "- Lookup 関係、OptionSet の選択肢などの関係情報",
      "",
      "【4】SharePoint リスト設計書",
      "- リストごとに、列（表示名・内部名・型・必須・説明・選択肢・Lookup）の一覧",
      "- Dataverse / Canvas App / Flow と連携している場合、その関係性",
      "",
      "【5】全体構成図（テキストベースでOK）",
      "- アプリ、フロー、Dataverse テーブル、SharePoint リストの関連図（どこからどこへデータが流れているか）",
      "",
      "出力形式は Markdown で、見出しや表を使って読みやすく整理してください。"]

/-- Model of `generate_gpt_prompt` (source lines 182-250). -/
def generate_gpt_prompt (fs : FS) (output_root : FPath) :
    Except (PyErr × FS) (FPath × FS) :=
  let solution_dir := output_root ++ ["solution"]
  let sp_dir := output_root ++ ["sharepoint"]
  let has_solution := fs.pathExists solution_dir
  let has_sp := fs.pathExists sp_dir
  let prompt_text :=
    String.intercalate "\n" (gpt_prompt_lines has_solution has_sp solution_dir sp_dir)
  match fs.makedirs output_root with
  | .error e => .error e
  | .ok fs1 =>
    let prompt_path := output_root ++ ["gpt_prompt.txt"]
    .ok (prompt_path, fs1.setFile prompt_path (.text prompt_text))

/-- The filesystem carried by a per-entry result, on either path. -/
def mState : Except (PyErr × FS) FS → FS
  | .ok fs => fs
  | .error (_, fs) => fs

/-- The solution directory holds exactly the archive entries: every entry
appears at its rebased path, and every file at or below the solution
directory is a rebased entry. -/
def contentsExactly (fs : FS) (sdir : FPath) (entries : List (FPath × Content)) : Prop :=
  (∀ n c, (n, c) ∈ entries → fs.lookupFile (sdir ++ n) = some c) ∧
  (∀ p c, (p, c) ∈ fs.files → sdir <+: p → ∃ n, (n, c) ∈ entries ∧ p = sdir ++ n)

/-- Fold a list of writes over a file association list (the footprint of
`extractAll` on the file table). -/
def insertAllList (es : List (FPath × Content)) (l : List (FPath × Content)) :
    List (FPath × Content) :=
  es.foldl (fun acc e => insertFile acc e.1 e.2) l

/-- Entries of the concrete archive used to exercise `unzip_solution`: one
embedded Canvas app package, itself a valid ZIP. -/
def cexEntries : List (FPath × Content) :=
  [(["CanvasApps", "app.msapp"], .zip [(["f"], .text "inner")])]

/-- A filesystem holding that archive at `z` and a stale file below the
future solution directory. -/
def cexFS0 : FS :=
  ⟨[(["z"], .zip cexEntries), (["out", "solution", "junk.txt"], .text "old")], []⟩

/-- The filesystem produced by running the extractor on `cexFS0`. -/
def cexResultFS : FS :=
  match unzip_solution cexFS0 ["z"] ["out"] with
  | .ok (_, fs1) => fs1
  | .error (_, fs1) => fs1

-- ## Basic lemmas

theorem FS.addDir_files (fs : FS) (p : FPath) : (fs.addDir p).files = fs.files := by
  unfold FS.addDir; split <;> rfl

theorem makedirsGo_files (l : List FPath) (fs : FS) :
    (mState (makedirsGo fs l)).files = fs.files := by
  induction l generalizing fs with
  | nil => rfl
  | cons q rest ih =>
    unfold makedirsGo
    by_cases h : fs.fileExists q
    · simp [h, mState]
    · simpa [h, FS.addDir_files] using ih (fs.addDir q)

theorem makedirsGo_error_shape (l : List FPath) (fs : FS) (e : PyErr) (fs' : FS)
    (h : makedirsGo fs l = .error (e, fs')) : ∃ q, e = .notADirectory q := by
  induction l generalizing fs with
  | nil => exact absurd h (by simp [makedirsGo])
  | cons q rest ih =>
    rw [makedirsGo] at h
    by_cases hq : fs.fileExists q
    · simp [hq] at h
      exact ⟨q, h.1.symm⟩
    · simp [hq] at h
      exact ih (fs.addDir q) h

theorem makedirs_error_spec (fs : FS) (p : FPath) (e : PyErr) (fs' : FS)
    (h : fs.makedirs p = .error (e, fs')) :
    fs'.files = fs.files ∧ ∃ q, e = .notADirectory q := by
  constructor
  · have hf := makedirsGo_files (pathPrefixes p) fs
    rw [show makedirsGo fs (pathPrefixes p) = fs.makedirs p from rfl, h] at hf
    exact hf
  · exact makedirsGo_error_shape (pathPrefixes p) fs e fs' h

theorem lookup_filter_ne (l : List (FPath × Content)) (p q : FPath) (h : q ≠ p) :
    List.lookup q (l.filter (fun e => e.1 != p)) = List.lookup q l := by
  induction l with
  | nil => rfl
  | cons a t ih =>
    by_cases hk : a.1 = p
    · have hb : (a.1 != p) = false := by simp [hk]
      have hq : (q == a.1) = false := by simp [hk, h]
      simp only [List.filter_cons, hb, if_neg Bool.false_ne_true, ih]
      rw [List.lookup, hq]
    · have : (a.1 != p) = true := by simp [hk]
      simp only [List.filter_cons, this, if_true]
      rw [List.lookup, List.lookup]
      by_cases hq : q = a.1
      · simp [hq]
      · have : (q == a.1) = false := by simp [hq]
        simp [this, ih]

theorem lookup_insertFile (l : List (FPath × Content)) (p : FPath) (c : Content) (q : FPath) :
    List.lookup q (insertFile l p c) = if q = p then some c else List.lookup q l := by
  unfold insertFile
  rw [List.lookup]
  by_cases h : q = p
  · simp [h]
  · have : (q == p) = false := by simp [h]
    simp [this, h, lookup_filter_ne l p q h]

theorem FS.lookupFile_setFile (fs : FS) (p : FPath) (c : Content) (q : FPath) :
    (fs.setFile p c).lookupFile q = if q = p then some c else fs.lookupFile q :=
  lookup_insertFile fs.files p c q

theorem lookup_filter_self (l : List (FPath × Content)) (p : FPath) :
    List.lookup p (l.filter (fun e => e.1 != p)) = none := by
  induction l with
  | nil => rfl
  | cons a t ih =>
    by_cases hk : a.1 = p
    · have : (a.1 != p) = false := by simp [hk]
      simp [List.filter_cons, this, ih]
    · have h1 : (a.1 != p) = true := by simp [hk]
      have h2 : (p == a.1) = false := by simp [Ne.symm hk]
      simp [List.filter_cons, h1, List.lookup, h2, ih]

theorem FS.lookupFile_removeFile (fs : FS) (p : FPath) (q : FPath) :
    (fs.removeFile p).lookupFile q = if q = p then none else fs.lookupFile q := by
  by_cases h : q = p
  · simp [h, FS.removeFile, FS.lookupFile, lookup_filter_self]
  · simp [h, FS.removeFile, FS.lookupFile, lookup_filter_ne fs.files p q h]

theorem str_append_right_ne (s : String) {b1 b2 : String} (h : b1.data ≠ b2.data) :
    s ++ b1 ≠ s ++ b2 := by
  intro he
  have hd := congrArg String.data he
  rw [String.data_append, String.data_append] at hd
  exact h (List.append_cancel_left hd)

theorem append_last_ne (l : FPath) {a b : String} (h : a ≠ b) : l ++ [a] ≠ l ++ [b] := by
  intro he
  have := List.append_cancel_left he
  simp at this
  exact h this

theorem FS.lookupFile_eq_of_files_eq {fs fs1 : FS} (h : fs.files = fs1.files)
    (p : FPath) : fs.lookupFile p = fs1.lookupFile p := by
  unfold FS.lookupFile; rw [h]

theorem FS.fileExists_eq_of_files_eq {fs fs1 : FS} (h : fs.files = fs1.files)
    (p : FPath) : fs.fileExists p = fs1.fileExists p := by
  unfold FS.fileExists; rw [FS.lookupFile_eq_of_files_eq h]

theorem FS.dirExists_congr {fs fs1 : FS} (hf : fs.files = fs1.files)
    (hd : fs.dirs = fs1.dirs) (p : FPath) : fs.dirExists p = fs1.dirExists p := by
  unfold FS.dirExists; rw [hf, hd]

theorem FS.setFile_dirs (fs : FS) (p : FPath) (c : Content) :
    (fs.setFile p c).dirs = fs.dirs := rfl

theorem FS.removeFile_dirs (fs : FS) (p : FPath) : (fs.removeFile p).dirs = fs.dirs := rfl

theorem FS.extractAll_dirs (es : List (FPath × Content)) (fs : FS) (dest : FPath) :
    (fs.extractAll dest es).dirs = fs.dirs := by
  induction es generalizing fs with
  | nil => rfl
  | cons e t ih => simpa [FS.extractAll] using ih (fs.setFile (dest ++ e.1) e.2)

theorem FS.addDir_dirExists_self (fs : FS) (q : FPath) : (fs.addDir q).dirExists q = true := by
  unfold FS.addDir
  split
  · assumption
  · simp [FS.dirExists, List.contains_cons]

theorem FS.addDir_dirExists_mono (fs : FS) (q p : FPath) (h : fs.dirExists p = true) :
    (fs.addDir q).dirExists p = true := by
  unfold FS.addDir
  split
  · exact h
  · unfold FS.dirExists at h ⊢
    simp only [List.contains_cons, List.any_cons, Bool.or_eq_true] at h ⊢
    tauto

theorem makedirsGo_ok_spec (l : List FPath) (fs : FS)
    (h : ∀ q ∈ l, fs.fileExists q = false) :
    ∃ fs1, makedirsGo fs l = .ok fs1 ∧ fs1.files = fs.files ∧
      (∀ q ∈ l, fs1.dirExists q = true) ∧
      (∀ d ∈ fs1.dirs, d ∈ fs.dirs ∨ d ∈ l) ∧
      (∀ p, fs.dirExists p = true → fs1.dirExists p = true) := by
  induction l generalizing fs with
  | nil => exact ⟨fs, rfl, rfl, by simp, fun d hd => .inl hd, fun p hp => hp⟩
  | cons q rest ih =>
    have hq := h q (List.mem_cons_self ..)
    have hrest : ∀ r ∈ rest, (fs.addDir q).fileExists r = false := by
      intro r hr
      rw [FS.fileExists_eq_of_files_eq (FS.addDir_files fs q)]
      exact h r (List.mem_cons_of_mem _ hr)
    obtain ⟨fs1, h1, h2, h3, h4, h5⟩ := ih (fs.addDir q) hrest
    refine ⟨fs1, ?_, ?_, ?_, ?_, ?_⟩
    · rw [makedirsGo, hq]; simpa using h1
    · rw [h2, FS.addDir_files]
    · intro r hr
      rcases List.mem_cons.mp hr with rfl | hr
      · exact h5 r (FS.addDir_dirExists_self fs r)
      · exact h3 r hr
    · intro d hd
      rcases h4 d hd with hd1 | hd1
      · by_cases hde : fs.dirExists q = true
        · exact .inl (by simpa [FS.addDir, hde] using hd1)
        · have : d ∈ q :: fs.dirs := by simpa [FS.addDir, hde] using hd1
          rcases List.mem_cons.mp this with rfl | hmem
          · exact .inr (List.mem_cons_self ..)
          · exact .inl hmem
      · exact .inr (List.mem_cons_of_mem _ hd1)
    · intro p hp
      exact h5 p (FS.addDir_dirExists_mono fs q p hp)

theorem filter_ne_of_lookup_none (l : List (FPath × Content)) (p : FPath)
    (h : List.lookup p l = none) : l.filter (fun e => e.1 != p) = l := by
  induction l with
  | nil => rfl
  | cons a t ih =>
    rw [List.lookup] at h
    by_cases hk : p = a.1
    · simp [hk] at h
    · have hb : (p == a.1) = false := by simp [hk]
      rw [hb] at h
      have : (a.1 != p) = true := by simp [Ne.symm hk]
      simp [List.filter_cons, this, ih h]

theorem removeFile_setFile_files (fs : FS) (p : FPath) (c : Content)
    (h : fs.lookupFile p = none) : ((fs.setFile p c).removeFile p).files = fs.files := by
  show (insertFile fs.files p c).filter (fun e => e.1 != p) = fs.files
  unfold insertFile
  rw [List.filter_cons]
  have : (p != p) = false := by simp
  rw [this]
  simp only [if_neg Bool.false_ne_true]
  rw [List.filter_filter]
  simp only [Bool.and_self]
  exact filter_ne_of_lookup_none fs.files p h

theorem str_ne_append {s t : String} (ht : t.data ≠ []) : s ≠ s ++ t := by
  intro he
  have hd := congrArg String.data he
  rw [String.data_append] at hd
  have hlen := congrArg List.length hd
  rw [List.length_append] at hlen
  have h0 : t.data.length = 0 := by omega
  exact ht (List.length_eq_zero.mp h0)

theorem lookupFile_extractAll_notunder (es : List (FPath × Content)) (fs : FS)
    (dest q : FPath) (h : ∀ e ∈ es, dest ++ e.1 ≠ q) :
    (fs.extractAll dest es).lookupFile q = fs.lookupFile q := by
  induction es generalizing fs with
  | nil => rfl
  | cons e t ih =>
    have step : (fs.setFile (dest ++ e.1) e.2).lookupFile q = fs.lookupFile q := by
      rw [FS.lookupFile_setFile]
      simp [Ne.symm (h e (List.mem_cons_self ..))]
    calc (fs.extractAll dest (e :: t)).lookupFile q
        = ((fs.setFile (dest ++ e.1) e.2).extractAll dest t).lookupFile q := rfl
      _ = (fs.setFile (dest ++ e.1) e.2).lookupFile q :=
          ih (fs.setFile (dest ++ e.1) e.2) (fun x hx => h x (List.mem_cons_of_mem _ hx))
      _ = fs.lookupFile q := step

theorem mem_pathPrefixes_self (p : FPath) (h : p ≠ []) : p ∈ pathPrefixes p := by
  unfold pathPrefixes
  have hl : 0 < p.length := List.length_pos.mpr h
  refine List.mem_map.mpr ⟨p.length - 1, ?_, ?_⟩
  · exact List.mem_range.mpr (by omega)
  · rw [show p.length - 1 + 1 = p.length by omega]
    exact List.take_length p

theorem openZip_badzip {fs : FS} {p : FPath} {c : Content}
    (h : fs.lookupFile p = some c) (hnz : ∀ es, c ≠ .zip es) :
    fs.openZip p = .error .badZipFile := by
  unfold FS.openZip
  rw [h]
  cases c with
  | zip es => exact absurd rfl (hnz es)
  | text s => rfl
  | json v => rfl
  | csv rows => rfl

theorem makedirs_ok_files {fs fs1 : FS} {p : FPath} (h : fs.makedirs p = .ok fs1) :
    fs1.files = fs.files := by
  have hrun := makedirsGo_files (pathPrefixes p) fs
  rw [show makedirsGo fs (pathPrefixes p) = fs.makedirs p from rfl, h] at hrun
  exact hrun

theorem FS.fileExists_false_iff (fs : FS) (p : FPath) :
    fs.fileExists p = false ↔ fs.lookupFile p = none := by
  unfold FS.fileExists
  cases h : fs.lookupFile p <;> simp

theorem mState_ok (fs : FS) : mState (.ok fs) = fs := rfl

theorem mState_error (e : PyErr) (fs : FS) : mState (.error (e, fs)) = fs := rfl

theorem FS.dirExists_iff (fs : FS) (p : FPath) :
    fs.dirExists p = true ↔
      p ∈ fs.dirs ∨ (∃ e ∈ fs.files, p <+: e.1 ∧ p.length < e.1.length) ∨
      (∃ d ∈ fs.dirs, p <+: d ∧ p.length < d.length) := by
  unfold FS.dirExists
  simp only [List.any_eq_true, List.isPrefixOf_iff_prefix, List.elem_iff,
    Bool.or_eq_true, Bool.and_eq_true, decide_eq_true_eq]
  constructor
  · rintro ((h | ⟨e, he, hpre, hlen⟩) | ⟨d, hdm, hpre, hlen⟩)
    · exact .inl h
    · exact .inr (.inl ⟨e, he, hpre, hlen⟩)
    · exact .inr (.inr ⟨d, hdm, hpre, hlen⟩)
  · rintro (h | ⟨e, he, hpre, hlen⟩ | ⟨d, hdm, hpre, hlen⟩)
    · exact .inl (.inl h)
    · exact .inl (.inr ⟨e, he, hpre, hlen⟩)
    · exact .inr ⟨d, hdm, hpre, hlen⟩

theorem FS.dirExists_setFile_mono (fs : FS) (q : FPath) (c : Content) (p : FPath)
    (h : fs.dirExists p = true) : (fs.setFile q c).dirExists p = true := by
  rw [FS.dirExists_iff] at h ⊢
  have hdirs : (fs.setFile q c).dirs = fs.dirs := rfl
  rw [hdirs]
  rcases h with h | ⟨e, he, hpre, hlen⟩ | h
  · exact .inl h
  · refine .inr (.inl ?_)
    by_cases heq : e.1 = q
    · exact ⟨(q, c), List.mem_cons_self .., by rw [← heq]; exact hpre,
        by rw [← heq]; exact hlen⟩
    · refine ⟨e, List.mem_cons_of_mem _ (List.mem_filter.mpr ⟨he, by simp [heq]⟩),
        hpre, hlen⟩
  · exact .inr (.inr h)

theorem FS.dirExists_setFile_rev (fs : FS) (q : FPath) (c : Content) (p : FPath)
    (h : (fs.setFile q c).dirExists p = true) :
    fs.dirExists p = true ∨ (p <+: q ∧ p.length < q.length) := by
  rw [FS.dirExists_iff] at h
  rw [FS.dirExists_iff]
  have hdirs : (fs.setFile q c).dirs = fs.dirs := rfl
  rw [hdirs] at h
  rcases h with h | ⟨e, he, hpre, hlen⟩ | h
  · exact .inl (.inl h)
  · rcases List.mem_cons.mp he with heq | he
    · subst heq
      exact .inr ⟨hpre, hlen⟩
    · exact .inl (.inr (.inl ⟨e, (List.mem_filter.mp he).1, hpre, hlen⟩))
  · exact .inl (.inr (.inr h))

theorem dirExists_of_dirs_subset {fs fs1 : FS} {L : List FPath}
    (hf : fs1.files = fs.files) (hd : ∀ d ∈ fs1.dirs, d ∈ fs.dirs ∨ d ∈ L)
    (p : FPath) (h : fs1.dirExists p = true) :
    fs.dirExists p = true ∨ ∃ d ∈ L, p = d ∨ (p <+: d ∧ p.length < d.length) := by
  rw [FS.dirExists_iff] at h
  rw [FS.dirExists_iff]
  rcases h with h | ⟨e, he, hpre, hlen⟩ | ⟨d0, hdm, hpre, hlen⟩
  · rcases hd p h with h1 | h1
    · exact .inl (.inl h1)
    · exact .inr ⟨p, h1, .inl rfl⟩
  · rw [hf] at he
    exact .inl (.inr (.inl ⟨e, he, hpre, hlen⟩))
  · rcases hd d0 hdm with h1 | h1
    · exact .inl (.inr (.inr ⟨d0, h1, hpre, hlen⟩))
    · exact .inr ⟨d0, h1, .inr ⟨hpre, hlen⟩⟩

theorem mem_pathPrefixes_length_le {d p : FPath} (h : d ∈ pathPrefixes p) :
    d.length ≤ p.length := by
  unfold pathPrefixes at h
  obtain ⟨k, _, rfl⟩ := List.mem_map.mp h
  rw [List.length_take]
  omega

theorem makedirsGo_all_exist (l : List FPath) (fs : FS)
    (h : ∀ q ∈ l, fs.fileExists q = false ∧ fs.dirExists q = true) :
    makedirsGo fs l = .ok fs := by
  induction l with
  | nil => rfl
  | cons q rest ih =>
    have hq := h q (List.mem_cons_self ..)
    rw [makedirsGo, hq.1]
    have haddeq : fs.addDir q = fs := by unfold FS.addDir; rw [hq.2]; simp
    simpa [haddeq] using ih (fun r hr => h r (List.mem_cons_of_mem _ hr))

theorem insertFile_insertFile_self (l : List (FPath × Content)) (p : FPath) (c : Content) :
    insertFile (insertFile l p c) p c = insertFile l p c := by
  unfold insertFile
  rw [List.filter_cons]
  have hpp : (p != p) = false := by simp
  rw [hpp]
  simp only [if_neg Bool.false_ne_true]
  rw [List.filter_filter]
  simp only [Bool.and_self]

theorem FS.setFile_setFile_self (fs : FS) (p : FPath) (c : Content) :
    (fs.setFile p c).setFile p c = fs.setFile p c := by
  unfold FS.setFile
  rw [insertFile_insertFile_self]

theorem FS.ext2 {a b : FS} (hf : a.files = b.files) (hd : a.dirs = b.dirs) : a = b := by
  cases a; cases b; cases hf; cases hd; rfl

theorem insertAllList_cons (e : FPath × Content) (t : List (FPath × Content))
    (l : List (FPath × Content)) :
    insertAllList (e :: t) l = insertAllList t (insertFile l e.1 e.2) := rfl

theorem extractAll_files (es : List (FPath × Content)) (fs : FS) (dest : FPath) :
    (fs.extractAll dest es).files =
      insertAllList (es.map (fun e => (dest ++ e.1, e.2))) fs.files := by
  induction es generalizing fs with
  | nil => rfl
  | cons e t ih =>
    show ((fs.setFile (dest ++ e.1) e.2).extractAll dest t).files = _
    rw [ih]
    rfl

theorem insertAllList_decomp (es : List (FPath × Content)) (l : List (FPath × Content)) :
    insertAllList es l =
      insertAllList es [] ++ l.filter (fun q => !(es.any (fun e => e.1 == q.1))) := by
  induction es generalizing l with
  | nil => simp [insertAllList]
  | cons e t ih =>
    obtain ⟨ek, ev⟩ := e
    rw [insertAllList_cons, insertAllList_cons, ih, ih (insertFile [] ek ev),
      List.append_assoc]
    congr 1
    unfold insertFile
    have hstep : ∀ m : List (FPath × Content),
        (m.filter (fun q => q.1 != ek)).filter (fun q => !(t.any (fun x => x.1 == q.1))) =
          m.filter (fun q => !((ek == q.1) || t.any (fun x => x.1 == q.1))) := by
      intro m
      rw [List.filter_filter]
      refine List.filter_congr ?_
      intro a _
      by_cases hae : a.1 = ek
      · simp [hae]
      · have h1 : (a.1 != ek) = true := by simpa using hae
        have h2 : (ek == a.1) = false := by
          simpa using (Ne.symm hae)
        simp [h1, h2]
    simp only [show ((ek, ev) : FPath × Content).1 = ek from rfl,
      show ((ek, ev) : FPath × Content).2 = ev from rfl]
    by_cases hke : (t.any fun x => x.1 == ek) = true
    · rw [List.filter_cons, List.filter_cons]
      simp only [hke, Bool.not_true, if_neg Bool.false_ne_true, List.filter_nil,
        List.nil_append]
      exact hstep l
    · have hke2 : (t.any fun x => x.1 == ek) = false := by
        cases hx : (t.any fun x => x.1 == ek)
        · rfl
        · exact absurd hx hke
      rw [List.filter_cons, List.filter_cons]
      simp only [hke2, Bool.not_false, List.filter_nil, List.cons_append,
        List.nil_append, eq_self_iff_true]
      rw [if_pos trivial, if_pos trivial]
      show (ek, ev) :: List.filter (fun q => !t.any fun e => e.1 == q.1)
          (List.filter (fun e => e.1 != ek) l) =
        (ek, ev) :: List.filter (fun q => !(((ek, ev) :: t).any fun e => e.1 == q.1)) l
      congr 1
      exact hstep l

theorem insertAllList_nil_nodup (es : List (FPath × Content))
    (h : (es.map Prod.fst).Nodup) : insertAllList es [] = es.reverse := by
  induction es with
  | nil => rfl
  | cons e t ih =>
    rw [List.map_cons, List.nodup_cons] at h
    rw [insertAllList_cons,
      show insertFile [] e.1 e.2 = [(e.1, e.2)] from rfl,
      insertAllList_decomp t [(e.1, e.2)]]
    have hfil : [((e.1 : FPath), e.2)].filter (fun q => !(t.any (fun x => x.1 == q.1))) =
        [(e.1, e.2)] := by
      rw [List.filter_eq_self]
      intro a ha
      rw [List.mem_singleton] at ha
      subst ha
      show (!(t.any fun x => x.1 == e.1)) = true
      rw [Bool.not_eq_true', List.any_eq_false]
      intro x hx hxe
      exact h.1 (List.mem_map.mpr ⟨x, hx, by simpa using hxe⟩)
    rw [hfil, ih h.2, List.reverse_cons]

theorem lookup_append_some {l1 l2 : List (FPath × Content)} {k : FPath} {v : Content}
    (h : List.lookup k l1 = some v) : List.lookup k (l1 ++ l2) = some v := by
  induction l1 with
  | nil => exact absurd h (by simp)
  | cons a t ih =>
    rw [List.cons_append, List.lookup]
    rw [List.lookup] at h
    cases hk : (k == a.1) with
    | true => rw [hk] at h; exact h
    | false => rw [hk] at h; exact ih h

theorem lookup_append_none {l1 l2 : List (FPath × Content)} {k : FPath}
    (h : List.lookup k l1 = none) : List.lookup k (l1 ++ l2) = List.lookup k l2 := by
  induction l1 with
  | nil => rfl
  | cons a t ih =>
    rw [List.cons_append, List.lookup]
    rw [List.lookup] at h
    cases hk : (k == a.1) with
    | true => rw [hk] at h; exact absurd h (by simp)
    | false => rw [hk] at h; exact ih h

theorem lookup_of_mem_nodup {l : List (FPath × Content)} {k : FPath} {v : Content}
    (hnd : (l.map Prod.fst).Nodup) (hm : (k, v) ∈ l) : List.lookup k l = some v := by
  induction l with
  | nil => exact absurd hm (by simp)
  | cons a t ih =>
    rw [List.map_cons, List.nodup_cons] at hnd
    rcases List.mem_cons.mp hm with heq | hm2
    · rw [List.lookup, show k == a.1 from by rw [← heq]; simp]
      rw [← heq]
    · have hk : k ∈ t.map Prod.fst := List.mem_map.mpr ⟨(k, v), hm2, rfl⟩
      have hne : (k == a.1) = false := by
        simp only [beq_eq_false_iff_ne, ne_eq]
        intro he
        exact hnd.1 (he ▸ hk)
      rw [List.lookup, hne]
      exact ih hnd.2 hm2

theorem lookup_none_of_forall_ne {l : List (FPath × Content)} {k : FPath}
    (h : ∀ e ∈ l, e.1 ≠ k) : List.lookup k l = none := by
  induction l with
  | nil => rfl
  | cons a t ih =>
    have hne : (k == a.1) = false := by
      simp only [beq_eq_false_iff_ne, ne_eq]
      intro he
      exact h a (List.mem_cons_self ..) he.symm
    rw [List.lookup, hne]
    exact ih (fun e he => h e (List.mem_cons_of_mem _ he))

theorem lookup_some_mem {l : List (FPath × Content)} {k : FPath} {v : Content}
    (h : List.lookup k l = some v) : (k, v) ∈ l := by
  induction l with
  | nil => exact absurd h (by simp)
  | cons a t ih =>
    rw [List.lookup] at h
    cases hk : (k == a.1) with
    | true =>
      rw [hk] at h
      have hkv : k = a.1 := by simpa using hk
      have hv : v = a.2 := by injection h with h2; exact h2.symm
      rw [hkv, hv]
      exact List.mem_cons_self ..
    | false =>
      rw [hk] at h
      exact List.mem_cons_of_mem _ (ih h)

-- ## Claim theorems

/-- C5: calling `unzip_solution` with a path that does not exist raises the
FileNotFoundError immediately, before creating the solution directory or
touching anything else: the error carries the input filesystem unchanged. -/
theorem unzip_solution_notfound (fs : FS) (zip_path output_root : FPath)
    (h : fs.pathExists zip_path = false) :
    unzip_solution fs zip_path output_root =
      .error (.fileNotFound ("ソリューションZipが見つかりません: " ++ pathStr zip_path), fs) := by
  simp [unzip_solution, h]

theorem unzip_solution_notfound_witness :
    unzip_solution ⟨[], []⟩ ["a.zip"] ["out"] =
      .error (.fileNotFound ("ソリューションZipが見つかりません: " ++ pathStr ["a.zip"]), ⟨[], []⟩) :=
  unzip_solution_notfound ⟨[], []⟩ ["a.zip"] ["out"] rfl

/-- C8: the normalization in `get_sp_list_columns` turns a single JSON
object into a one-element array and leaves an array unchanged, so a caller
handed a record or an array of records always receives a sequence. -/
theorem get_sp_list_columns_normalize_sequence (data : JVal)
    (h : (∃ kvs, data = .obj kvs) ∨ (∃ xs, data = .arr xs)) :
    ∃ xs, get_sp_list_columns_normalize data = .arr xs ∧
      (∀ kvs, data = .obj kvs → xs = [data]) ∧
      (∀ ys, data = .arr ys → xs = ys) := by
  rcases h with ⟨kvs, rfl⟩ | ⟨ys, rfl⟩
  · exact ⟨[.obj kvs], rfl, by simp, by simp⟩
  · exact ⟨ys, rfl, by simp, by simp⟩

theorem get_sp_list_columns_normalize_sequence_witness :
    ∃ xs, get_sp_list_columns_normalize (.obj [("Title", .str "T")]) = .arr xs ∧
      (∀ kvs, JVal.obj [("Title", .str "T")] = .obj kvs →
        xs = [JVal.obj [("Title", .str "T")]]) ∧
      (∀ ys, JVal.obj [("Title", .str "T")] = .arr ys → xs = ys) :=
  get_sp_list_columns_normalize_sequence (.obj [("Title", .str "T")])
    (.inl ⟨[("Title", .str "T")], rfl⟩)

/-- C7: in a CSV row, every absent attribute among display name, internal
name, type, description and default value degrades to the empty string,
while the required flag is passed through verbatim: absent gives the
`None` cell, a present value is copied as-is. -/
theorem field_row_missing_attrs (col : SPField) :
    ((List.lookup "Title" col = none ∧ List.lookup "DisplayName" col = none) →
      (field_row col).get? 0 = some (.str "")) ∧
    (List.lookup "InternalName" col = none → (field_row col).get? 1 = some (.str "")) ∧
    ((List.lookup "TypeAsString" col = none ∧ List.lookup "TypeDisplayName" col = none) →
      (field_row col).get? 2 = some (.str "")) ∧
    (List.lookup "Description" col = none → (field_row col).get? 4 = some (.str "")) ∧
    (List.lookup "DefaultValue" col = none → (field_row col).get? 5 = some (.str "")) ∧
    (List.lookup "Required" col = none → (field_row col).get? 3 = some JVal.null) ∧
    (∀ v, List.lookup "Required" col = some v → (field_row col).get? 3 = some v) := by
  refine ⟨fun h => ?_, fun h => ?_, fun h => ?_, fun h => ?_, fun h => ?_, fun h => ?_,
    fun v h => ?_⟩
  · simp [field_row, dget, pyor, h.1, h.2, JVal.truthy]
  · simp [field_row, dget, pyor, h, JVal.truthy]
  · simp [field_row, dget, pyor, h.1, h.2, JVal.truthy]
  · simp [field_row, dget, pyor, h, JVal.truthy]
  · simp [field_row, dget, pyor, h, JVal.truthy]
  · simp [field_row, dget, pyor, h, JVal.truthy]
  · simp [field_row, dget, pyor, h, JVal.truthy]

theorem field_row_missing_attrs_witness :
    (field_row []).get? 4 = some (.str "") ∧ (field_row []).get? 3 = some JVal.null :=
  ⟨(field_row_missing_attrs []).2.2.2.1 rfl, (field_row_missing_attrs []).2.2.2.2.2.1 rfl⟩

/-- C1: `export_sp_list_to_csv` is atomic around its only fallible step:
when it fails, the failure is the directory-creation step and no file has
been written (the carried filesystem has the input's files unchanged);
when it returns, both the CSV file and the JSON file exist.  Exactly one of
the two files can never be produced. -/
theorem export_sp_list_to_csv_atomic (fs : FS) (fields : List SPField)
    (root : FPath) (ln : String) :
    match export_sp_list_to_csv fs fields root ln with
    | .error (e, fs1) => fs1.files = fs.files ∧ ∃ q, e = .notADirectory q
    | .ok (cp, jp, fs1) => fs1.fileExists cp = true ∧ fs1.fileExists jp = true := by
  unfold export_sp_list_to_csv
  cases h : fs.makedirs (root ++ ["sharepoint"]) with
  | error ef =>
    obtain ⟨e, fs1⟩ := ef
    simp only [h]
    exact makedirs_error_spec fs _ e fs1 h
  | ok fs1 =>
    have hs : sanitizeListName ln ++ "_fields.json" ≠ sanitizeListName ln ++ "_fields.csv" :=
      str_append_right_ne _ (by decide)
    simp only [h]
    constructor
    · simp [FS.fileExists, FS.lookupFile_setFile]
    · simp [FS.fileExists, FS.lookupFile_setFile, hs]

/-- C6: on success, the CSV file holds the fixed header row plus one row per
field (N+1 rows) and the JSON file holds exactly the N field records; in a
row, a `Choices: ["A","B"]` attribute puts `Choices: A, B` into the "other"
column, a lookup pair `X`/`Y` puts `Lookup: List=X, Field=Y` there, and when
both apply the two summaries are joined with a pipe separator. -/
theorem export_sp_list_to_csv_rows (fs : FS) (fields : List SPField)
    (root : FPath) (ln : String) :
    (match export_sp_list_to_csv fs fields root ln with
     | .ok (cp, jp, fs1) =>
       fs1.lookupFile cp = some (.csv (csvHeader :: fields.map field_row)) ∧
       (csvHeader :: fields.map field_row).length = fields.length + 1 ∧
       fs1.lookupFile jp = some (.json (.arr (fields.map JVal.obj))) ∧
       (fields.map JVal.obj).length = fields.length
     | .error _ => True) ∧
    (∀ col : SPField, List.lookup "Choices" col = some (.arr [.str "A", .str "B"]) →
      List.lookup "LookupList" col = none → List.lookup "LookupField" col = none →
      (field_row col).get? 6 = some (.str "Choices: A, B")) ∧
    (∀ col : SPField, List.lookup "Choices" col = none →
      List.lookup "LookupList" col = some (.str "X") →
      List.lookup "LookupField" col = some (.str "Y") →
      (field_row col).get? 6 = some (.str "Lookup: List=X, Field=Y")) ∧
    (∀ col : SPField, List.lookup "Choices" col = some (.arr [.str "A", .str "B"]) →
      List.lookup "LookupList" col = some (.str "X") →
      List.lookup "LookupField" col = some (.str "Y") →
      (field_row col).get? 6 = some (.str "Choices: A, B | Lookup: List=X, Field=Y")) := by
  refine ⟨?_, ?_, ?_, ?_⟩
  · unfold export_sp_list_to_csv
    cases h : fs.makedirs (root ++ ["sharepoint"]) with
    | error ef => simp only [h]
    | ok fs1 =>
      have hs : sanitizeListName ln ++ "_fields.json" ≠ sanitizeListName ln ++ "_fields.csv" :=
        str_append_right_ne _ (by decide)
      simp only [h]
      refine ⟨?_, by simp, ?_, by simp⟩
      · simp [FS.lookupFile_setFile]
      · simp [FS.lookupFile_setFile, hs]
  · intro col h1 h2 h3
    simp [field_row, dget, pyor, h1, h2, h3, JVal.truthy, joinComma, JVal.pyStr]
    decide
  · intro col h1 h2 h3
    simp [field_row, dget, pyor, h1, h2, h3, JVal.truthy, joinComma, JVal.pyStr]
    decide
  · intro col h1 h2 h3
    simp [field_row, dget, pyor, h1, h2, h3, JVal.truthy, joinComma, JVal.pyStr]
    decide

theorem export_sp_list_to_csv_rows_witness :
    (field_row [("Choices", JVal.arr [.str "A", .str "B"]), ("LookupList", .str "X"),
        ("LookupField", .str "Y")]).get? 6 =
      some (.str "Choices: A, B | Lookup: List=X, Field=Y") :=
  (export_sp_list_to_csv_rows ⟨[], []⟩ [] [] "").2.2.2
    [("Choices", JVal.arr [.str "A", .str "B"]), ("LookupList", .str "X"),
      ("LookupField", .str "Y")] rfl rfl rfl

/-- C3: an embedded `.msapp` entry whose content is not a valid ZIP is
skipped non-fatally: the per-entry step returns normally (so the loop goes
on with the remaining entries), its `_extracted` destination folder exists
afterwards yet no file was added anywhere (in particular the folder is
empty when it started empty), and the temporary `.msapp.zip` copy is gone. -/
theorem processMsapp_invalid_zip_skipped (canvas : FPath) (fs : FS) (file : String)
    (rest : List String) (c : Content)
    (hext : strEndsWith file ".msapp" = true)
    (hcontent : fs.lookupFile (canvas ++ [file]) = some c)
    (hnz : ∀ es, c ≠ .zip es)
    (hmk : ∀ q ∈ pathPrefixes (canvas ++ [extractDirName file]), fs.fileExists q = false)
    (htemp : fs.fileExists (canvas ++ [file ++ ".zip"]) = false) :
    ∃ fs1, processMsapp canvas fs file = .ok fs1 ∧
      fs1.files = fs.files ∧
      fs1.dirExists (canvas ++ [extractDirName file]) = true ∧
      fs1.fileExists (canvas ++ [file ++ ".zip"]) = false ∧
      ((∀ e ∈ fs.files, ¬((canvas ++ [extractDirName file]) <+: e.1)) →
        ∀ e ∈ fs1.files, ¬((canvas ++ [extractDirName file]) <+: e.1)) ∧
      processEntries canvas fs (file :: rest) = processEntries canvas fs1 rest := by
  obtain ⟨fsm, hgo, hfilesm, hdirm, _, _⟩ :=
    makedirsGo_ok_spec (pathPrefixes (canvas ++ [extractDirName file])) fs hmk
  have hmk2 : fs.makedirs (canvas ++ [extractDirName file]) = .ok fsm := hgo
  have hlook1 : fsm.lookupFile (canvas ++ [file]) = some c := by
    rw [FS.lookupFile_eq_of_files_eq hfilesm]; exact hcontent
  have hcopy : fsm.copyFile (canvas ++ [file]) (canvas ++ [file ++ ".zip"]) =
      .ok (fsm.setFile (canvas ++ [file ++ ".zip"]) c) := by
    unfold FS.copyFile; rw [hlook1]
  have hopen : (fsm.setFile (canvas ++ [file ++ ".zip"]) c).openZip
      (canvas ++ [file ++ ".zip"]) = .error .badZipFile := by
    refine openZip_badzip ?_ hnz
    rw [FS.lookupFile_setFile]; simp
  have hresult : processMsapp canvas fs file =
      .ok ((fsm.setFile (canvas ++ [file ++ ".zip"]) c).removeFile
        (canvas ++ [file ++ ".zip"])) := by
    simp only [processMsapp, hext, if_true, hmk2, hcopy, hopen]
  have hfiles : ((fsm.setFile (canvas ++ [file ++ ".zip"]) c).removeFile
      (canvas ++ [file ++ ".zip"])).files = fs.files := by
    rw [removeFile_setFile_files fsm _ c ?_, hfilesm]
    rw [← FS.fileExists_false_iff]
    rw [FS.fileExists_eq_of_files_eq hfilesm]
    exact htemp
  refine ⟨_, hresult, hfiles, ?_, ?_, ?_, ?_⟩
  · have hf : ((fsm.setFile (canvas ++ [file ++ ".zip"]) c).removeFile
        (canvas ++ [file ++ ".zip"])).files = fsm.files := by
      rw [hfiles]; exact hfilesm.symm
    rw [FS.dirExists_congr hf rfl]
    exact hdirm _ (mem_pathPrefixes_self _ (by simp))
  · simp [FS.fileExists, FS.lookupFile_removeFile]
  · intro hfr e he
    rw [hfiles] at he
    exact hfr e he
  · simp [processEntries, hresult]

theorem processMsapp_invalid_zip_skipped_witness :
    ∃ fs1, processMsapp ["c"] ⟨[(["c", "a.msapp"], .text "x")], [["c"]]⟩ "a.msapp" = .ok fs1 ∧
      fs1.files = [(["c", "a.msapp"], .text "x")] ∧
      fs1.dirExists (["c"] ++ [extractDirName "a.msapp"]) = true ∧
      fs1.fileExists (["c"] ++ ["a.msapp" ++ ".zip"]) = false ∧
      ((∀ e ∈ [((["c", "a.msapp"] : FPath), Content.text "x")],
          ¬((["c"] ++ [extractDirName "a.msapp"]) <+: e.1)) →
        ∀ e ∈ fs1.files, ¬((["c"] ++ [extractDirName "a.msapp"]) <+: e.1)) ∧
      processEntries ["c"] ⟨[(["c", "a.msapp"], .text "x")], [["c"]]⟩ ["a.msapp"] =
        processEntries ["c"] fs1 [] :=
  processMsapp_invalid_zip_skipped ["c"] ⟨[(["c", "a.msapp"], .text "x")], [["c"]]⟩
    "a.msapp" [] (.text "x") (by decide) rfl (fun es h => Content.noConfusion h)
    (by decide) (by decide)

/-- C4: whatever the outcome of processing one embedded `.msapp` entry, the
original `.msapp` file keeps its exact content, and the renamed temporary
copy `<name>.msapp.zip` is absent from the resulting state: it is removed on
the success path and on the skip path, and never created on the failure
path. -/
theorem processMsapp_preserves_original (canvas : FPath) (fs : FS) (file : String)
    (c : Content)
    (hext : strEndsWith file ".msapp" = true)
    (horig : fs.lookupFile (canvas ++ [file]) = some c)
    (htemp : fs.fileExists (canvas ++ [file ++ ".zip"]) = false)
    (hne : ∀ es, c = .zip es → ∀ e ∈ es, e.1 ≠ []) :
    (mState (processMsapp canvas fs file)).lookupFile (canvas ++ [file]) = some c ∧
    (mState (processMsapp canvas fs file)).fileExists (canvas ++ [file ++ ".zip"]) = false := by
  have hmptemp : (canvas ++ [file] : FPath) ≠ canvas ++ [file ++ ".zip"] :=
    append_last_ne _ (str_ne_append (by decide))
  cases hgo : fs.makedirs (canvas ++ [extractDirName file]) with
  | error ef =>
    obtain ⟨e0, fse⟩ := ef
    have hfe := (makedirs_error_spec fs _ e0 fse hgo).1
    have hres : processMsapp canvas fs file = .error (e0, fse) := by
      simp only [processMsapp, hext, if_true, hgo]
    rw [hres]
    refine ⟨?_, ?_⟩
    · rw [mState_error, FS.lookupFile_eq_of_files_eq hfe]
      exact horig
    · rw [mState_error, FS.fileExists_eq_of_files_eq hfe]
      exact htemp
  | ok fsm =>
    have hfilesm : fsm.files = fs.files := makedirs_ok_files hgo
    have hlook1 : fsm.lookupFile (canvas ++ [file]) = some c := by
      rw [FS.lookupFile_eq_of_files_eq hfilesm]; exact horig
    have hcopy : fsm.copyFile (canvas ++ [file]) (canvas ++ [file ++ ".zip"]) =
        .ok (fsm.setFile (canvas ++ [file ++ ".zip"]) c) := by
      unfold FS.copyFile; rw [hlook1]
    have hlooktemp : (fsm.setFile (canvas ++ [file ++ ".zip"]) c).lookupFile
        (canvas ++ [file ++ ".zip"]) = some c := by
      rw [FS.lookupFile_setFile]; simp
    by_cases hz : ∃ es, c = .zip es
    · obtain ⟨es, rfl⟩ := hz
      have hopen : (fsm.setFile (canvas ++ [file ++ ".zip"]) (Content.zip es)).openZip
          (canvas ++ [file ++ ".zip"]) = .ok es := by
        unfold FS.openZip; rw [hlooktemp]
      have hres : processMsapp canvas fs file =
          .ok (((fsm.setFile (canvas ++ [file ++ ".zip"]) (Content.zip es)).extractAll
            (canvas ++ [extractDirName file]) es).removeFile (canvas ++ [file ++ ".zip"])) := by
        simp only [processMsapp, hext, if_true, hgo, hcopy, hopen]
      rw [hres]
      have hnotunder : ∀ e ∈ es,
          (canvas ++ [extractDirName file]) ++ e.1 ≠ canvas ++ [file] := by
        intro e hemem heq
        have hlen := congrArg List.length heq
        simp only [List.length_append, List.length_cons, List.length_nil] at hlen
        exact (hne es rfl e hemem) (List.length_eq_zero.mp (by omega))
      refine ⟨?_, ?_⟩
      · rw [mState_ok]
        rw [FS.lookupFile_removeFile]
        rw [if_neg hmptemp]
        rw [lookupFile_extractAll_notunder es _ _ _ hnotunder]
        rw [FS.lookupFile_setFile, if_neg hmptemp]
        exact hlook1
      · simp [mState, FS.fileExists, FS.lookupFile_removeFile]
    · have hnz : ∀ es, c ≠ .zip es := fun es h => hz ⟨es, h⟩
      have hopen : (fsm.setFile (canvas ++ [file ++ ".zip"]) c).openZip
          (canvas ++ [file ++ ".zip"]) = .error .badZipFile :=
        openZip_badzip hlooktemp hnz
      have hres : processMsapp canvas fs file =
          .ok ((fsm.setFile (canvas ++ [file ++ ".zip"]) c).removeFile
            (canvas ++ [file ++ ".zip"])) := by
        simp only [processMsapp, hext, if_true, hgo, hcopy, hopen]
      rw [hres]
      refine ⟨?_, ?_⟩
      · rw [mState_ok]
        rw [FS.lookupFile_removeFile, if_neg hmptemp, FS.lookupFile_setFile,
          if_neg hmptemp]
        exact hlook1
      · simp [mState, FS.fileExists, FS.lookupFile_removeFile]

theorem processMsapp_preserves_original_witness :
    (mState (processMsapp ["c"] ⟨[(["c", "b.msapp"], .zip [(["f"], .text "y")])], [["c"]]⟩
        "b.msapp")).lookupFile (["c"] ++ ["b.msapp"]) =
      some (.zip [(["f"], .text "y")]) ∧
    (mState (processMsapp ["c"] ⟨[(["c", "b.msapp"], .zip [(["f"], .text "y")])], [["c"]]⟩
        "b.msapp")).fileExists (["c"] ++ ["b.msapp" ++ ".zip"]) = false :=
  processMsapp_preserves_original ["c"]
    ⟨[(["c", "b.msapp"], .zip [(["f"], .text "y")])], [["c"]]⟩ "b.msapp"
    (.zip [(["f"], .text "y")]) (by decide) rfl (by decide)
    (by intro es h e hemem; injection h with h1; subst h1; simp at hemem; simp [hemem])

/-- C10: when processing one embedded `.msapp` entry raises anything other
than the swallowed `BadZipFile` (in this model, an OS error from the
directory-creation or copy step), the error propagates out of the loop and
aborts the remaining entries, the escaping error is never `BadZipFile`, and
no temporary `.msapp.zip` copy of the entry is left behind. -/
theorem processMsapp_error_fatal (canvas : FPath) (fs : FS) (file : String)
    (rest : List String) (e : PyErr) (fs1 : FS)
    (herr : processMsapp canvas fs file = .error (e, fs1))
    (htemp : fs.fileExists (canvas ++ [file ++ ".zip"]) = false) :
    processEntries canvas fs (file :: rest) = .error (e, fs1) ∧
    fs1.fileExists (canvas ++ [file ++ ".zip"]) = false ∧
    e ≠ .badZipFile := by
  refine ⟨by simp [processEntries, herr], ?_⟩
  by_cases hext : strEndsWith file ".msapp" = true
  · cases hgo : fs.makedirs (canvas ++ [extractDirName file]) with
    | error ef =>
      obtain ⟨e0, fse⟩ := ef
      rw [show processMsapp canvas fs file = .error (e0, fse) from by
        simp only [processMsapp, hext, if_true, hgo]] at herr
      injection herr with herr
      injection herr with he hfs
      subst he; subst hfs
      have hsp := makedirs_error_spec fs _ e0 fse hgo
      obtain ⟨q, rfl⟩ := hsp.2
      refine ⟨?_, by simp⟩
      rw [FS.fileExists_eq_of_files_eq hsp.1]
      exact htemp
    | ok fsm =>
      have hfilesm : fsm.files = fs.files := makedirs_ok_files hgo
      cases hlk : fsm.lookupFile (canvas ++ [file]) with
      | none =>
        have hcopy : fsm.copyFile (canvas ++ [file]) (canvas ++ [file ++ ".zip"]) =
            .error (.fileNotFound (pathStr (canvas ++ [file]))) := by
          unfold FS.copyFile; rw [hlk]
        rw [show processMsapp canvas fs file =
            .error (.fileNotFound (pathStr (canvas ++ [file])), fsm) from by
          simp only [processMsapp, hext, if_true, hgo, hcopy]] at herr
        injection herr with herr
        injection herr with he hfs
        subst he; subst hfs
        refine ⟨?_, by simp⟩
        rw [FS.fileExists_eq_of_files_eq hfilesm]
        exact htemp
      | some c0 =>
        have hcopy : fsm.copyFile (canvas ++ [file]) (canvas ++ [file ++ ".zip"]) =
            .ok (fsm.setFile (canvas ++ [file ++ ".zip"]) c0) := by
          unfold FS.copyFile; rw [hlk]
        have hlooktemp : (fsm.setFile (canvas ++ [file ++ ".zip"]) c0).lookupFile
            (canvas ++ [file ++ ".zip"]) = some c0 := by
          rw [FS.lookupFile_setFile]; simp
        cases c0 with
        | zip es =>
          rw [show processMsapp canvas fs file =
              .ok (((fsm.setFile (canvas ++ [file ++ ".zip"]) (Content.zip es)).extractAll
                (canvas ++ [extractDirName file]) es).removeFile
                (canvas ++ [file ++ ".zip"])) from by
            simp only [processMsapp, hext, if_true, hgo, hcopy]
            unfold FS.openZip
            rw [hlooktemp]] at herr
          exact absurd herr (by simp)
        | text s =>
          rw [show processMsapp canvas fs file =
              .ok ((fsm.setFile (canvas ++ [file ++ ".zip"]) (Content.text s)).removeFile
                (canvas ++ [file ++ ".zip"])) from by
            simp only [processMsapp, hext, if_true, hgo, hcopy]
            unfold FS.openZip
            rw [hlooktemp]] at herr
          exact absurd herr (by simp)
        | json v =>
          rw [show processMsapp canvas fs file =
              .ok ((fsm.setFile (canvas ++ [file ++ ".zip"]) (Content.json v)).removeFile
                (canvas ++ [file ++ ".zip"])) from by
            simp only [processMsapp, hext, if_true, hgo, hcopy]
            unfold FS.openZip
            rw [hlooktemp]] at herr
          exact absurd herr (by simp)
        | csv rows =>
          rw [show processMsapp canvas fs file =
              .ok ((fsm.setFile (canvas ++ [file ++ ".zip"]) (Content.csv rows)).removeFile
                (canvas ++ [file ++ ".zip"])) from by
            simp only [processMsapp, hext, if_true, hgo, hcopy]
            unfold FS.openZip
            rw [hlooktemp]] at herr
          exact absurd herr (by simp)
  · rw [show processMsapp canvas fs file = .ok fs from by
      simp [processMsapp, hext]] at herr
    exact absurd herr (by simp)

theorem processMsapp_error_fatal_witness :
    processEntries ["c"] ⟨[(["c", "a.msapp"], .text "m"), (["c", "a_extracted"], .text "b")],
        [["c"]]⟩ ["a.msapp", "other"] =
      .error (.notADirectory ["c", "a_extracted"],
        ⟨[(["c", "a.msapp"], .text "m"), (["c", "a_extracted"], .text "b")], [["c"]]⟩) ∧
    (⟨[(["c", "a.msapp"], .text "m"), (["c", "a_extracted"], .text "b")],
        [["c"]]⟩ : FS).fileExists (["c"] ++ ["a.msapp" ++ ".zip"]) = false ∧
    (PyErr.notADirectory ["c", "a_extracted"]) ≠ .badZipFile :=
  processMsapp_error_fatal ["c"]
    ⟨[(["c", "a.msapp"], .text "m"), (["c", "a_extracted"], .text "b")], [["c"]]⟩
    "a.msapp" ["other"] (.notADirectory ["c", "a_extracted"])
    ⟨[(["c", "a.msapp"], .text "m"), (["c", "a_extracted"], .text "b")], [["c"]]⟩
    rfl (by decide)

/-- C9: against an output root whose `solution/` folder exists but whose
`sharepoint/` folder does not, `generate_gpt_prompt` writes the assembled
text to the fixed name `gpt_prompt.txt` under the root (creating the root if
necessary); the text's lines include the solution bullet line and the
"sharepoint not yet generated" placeholder; and re-running on the result
overwrites the same file with identical content, leaving the state exactly
unchanged. -/
theorem generate_gpt_prompt_solution_only (fs : FS) (root : FPath)
    (hsol : fs.pathExists (root ++ ["solution"]) = true)
    (hsp : fs.pathExists (root ++ ["sharepoint"]) = false)
    (hmk : ∀ q ∈ pathPrefixes root, fs.fileExists q = false) :
    ∃ fs1, generate_gpt_prompt fs root = .ok (root ++ ["gpt_prompt.txt"], fs1) ∧
      fs1.lookupFile (root ++ ["gpt_prompt.txt"]) =
        some (.text (String.intercalate "\n"
          (gpt_prompt_lines true false (root ++ ["solution"]) (root ++ ["sharepoint"])))) ∧
      ("- PowerPlatform ソリューション展開フォルダ: " ++ pathStr (root ++ ["solution"]))
        ∈ gpt_prompt_lines true false (root ++ ["solution"]) (root ++ ["sharepoint"]) ∧
      "- (sharepoint フォルダがまだ生成されていません)"
        ∈ gpt_prompt_lines true false (root ++ ["solution"]) (root ++ ["sharepoint"]) ∧
      generate_gpt_prompt fs1 root = .ok (root ++ ["gpt_prompt.txt"], fs1) := by
  obtain ⟨fsm, hgo, hfilesm, hdirall, hdirchar, hdirmono⟩ :=
    makedirsGo_ok_spec (pathPrefixes root) fs hmk
  have hmk2 : fs.makedirs root = .ok fsm := hgo
  have hne_solgpt : (root ++ ["solution"] : FPath) ≠ root ++ ["gpt_prompt.txt"] :=
    append_last_ne _ (by decide)
  have hne_spgpt : (root ++ ["sharepoint"] : FPath) ≠ root ++ ["gpt_prompt.txt"] :=
    append_last_ne _ (by decide)
  have hres : generate_gpt_prompt fs root = .ok (root ++ ["gpt_prompt.txt"],
      fsm.setFile (root ++ ["gpt_prompt.txt"])
        (.text (String.intercalate "\n" (gpt_prompt_lines true false
          (root ++ ["solution"]) (root ++ ["sharepoint"]))))) := by
    simp only [generate_gpt_prompt, hsol, hsp, hmk2]
  have hlookup1 : (fsm.setFile (root ++ ["gpt_prompt.txt"])
      (.text (String.intercalate "\n" (gpt_prompt_lines true false
        (root ++ ["solution"]) (root ++ ["sharepoint"]))))).lookupFile
      (root ++ ["gpt_prompt.txt"]) =
      some (.text (String.intercalate "\n" (gpt_prompt_lines true false
        (root ++ ["solution"]) (root ++ ["sharepoint"])))) := by
    rw [FS.lookupFile_setFile]; simp
  have hspfalse : fs.fileExists (root ++ ["sharepoint"]) = false ∧
      fs.dirExists (root ++ ["sharepoint"]) = false := by
    have := hsp
    unfold FS.pathExists at this
    exact ⟨by cases hx : fs.fileExists (root ++ ["sharepoint"]) <;> simp_all,
      by cases hx : fs.dirExists (root ++ ["sharepoint"]) <;> simp_all⟩
  have hsol2 : (fsm.setFile (root ++ ["gpt_prompt.txt"])
      (.text (String.intercalate "\n" (gpt_prompt_lines true false
        (root ++ ["solution"]) (root ++ ["sharepoint"]))))).pathExists
      (root ++ ["solution"]) = true := by
    unfold FS.pathExists at hsol ⊢
    rw [Bool.or_eq_true] at hsol ⊢
    rcases hsol with hfe | hde
    · refine .inl ?_
      unfold FS.fileExists at hfe ⊢
      rw [FS.lookupFile_setFile, if_neg hne_solgpt,
        FS.lookupFile_eq_of_files_eq hfilesm]
      exact hfe
    · exact .inr (FS.dirExists_setFile_mono _ _ _ _ (hdirmono _ hde))
  have hlengpt : (root ++ ["gpt_prompt.txt"] : FPath).length = root.length + 1 := by
    simp
  have hlensp : (root ++ ["sharepoint"] : FPath).length = root.length + 1 := by
    simp
  have hsp2 : (fsm.setFile (root ++ ["gpt_prompt.txt"])
      (.text (String.intercalate "\n" (gpt_prompt_lines true false
        (root ++ ["solution"]) (root ++ ["sharepoint"]))))).pathExists
      (root ++ ["sharepoint"]) = false := by
    unfold FS.pathExists
    rw [Bool.or_eq_false_iff]
    refine ⟨?_, ?_⟩
    · unfold FS.fileExists
      rw [FS.lookupFile_setFile, if_neg hne_spgpt,
        FS.lookupFile_eq_of_files_eq hfilesm]
      have := hspfalse.1
      unfold FS.fileExists at this
      exact this
    · cases hb : (fsm.setFile (root ++ ["gpt_prompt.txt"])
          (.text (String.intercalate "\n" (gpt_prompt_lines true false
            (root ++ ["solution"]) (root ++ ["sharepoint"]))))).dirExists
          (root ++ ["sharepoint"]) with
      | false => rfl
      | true =>
        exfalso
        rcases FS.dirExists_setFile_rev _ _ _ _ hb with hfsm | ⟨hpre, hlt⟩
        · rcases dirExists_of_dirs_subset hfilesm hdirchar _ hfsm with hfs | ⟨d, hdm, hcase⟩
          · rw [hspfalse.2] at hfs; exact Bool.false_ne_true hfs
          · have hdlen := mem_pathPrefixes_length_le hdm
            rcases hcase with rfl | ⟨_, hlt⟩
            · omega
            · omega
        · omega
  have hmk3 : ∀ q ∈ pathPrefixes root,
      (fsm.setFile (root ++ ["gpt_prompt.txt"])
        (.text (String.intercalate "\n" (gpt_prompt_lines true false
          (root ++ ["solution"]) (root ++ ["sharepoint"]))))).fileExists q = false := by
    intro q hq
    have hqlen := mem_pathPrefixes_length_le hq
    have hqne : q ≠ root ++ ["gpt_prompt.txt"] := by
      intro heq
      have := congrArg List.length heq
      omega
    unfold FS.fileExists
    rw [FS.lookupFile_setFile, if_neg hqne, FS.lookupFile_eq_of_files_eq hfilesm]
    have := hmk q hq
    unfold FS.fileExists at this
    exact this
  have hdirs3 : ∀ q ∈ pathPrefixes root,
      (fsm.setFile (root ++ ["gpt_prompt.txt"])
        (.text (String.intercalate "\n" (gpt_prompt_lines true false
          (root ++ ["solution"]) (root ++ ["sharepoint"]))))).dirExists q = true := by
    intro q hq
    exact FS.dirExists_setFile_mono _ _ _ _ (hdirall q hq)
  have hgo2 : (fsm.setFile (root ++ ["gpt_prompt.txt"])
      (.text (String.intercalate "\n" (gpt_prompt_lines true false
        (root ++ ["solution"]) (root ++ ["sharepoint"]))))).makedirs root =
      .ok (fsm.setFile (root ++ ["gpt_prompt.txt"])
        (.text (String.intercalate "\n" (gpt_prompt_lines true false
          (root ++ ["solution"]) (root ++ ["sharepoint"]))))) :=
    makedirsGo_all_exist _ _ (fun q hq => ⟨hmk3 q hq, hdirs3 q hq⟩)
  refine ⟨_, hres, hlookup1, by simp [gpt_prompt_lines], by simp [gpt_prompt_lines], ?_⟩
  simp only [generate_gpt_prompt, hsol2, hsp2, hgo2, FS.setFile_setFile_self]

theorem generate_gpt_prompt_solution_only_witness :
    ∃ fs1, generate_gpt_prompt ⟨[], [["out"], ["out", "solution"]]⟩ ["out"] =
        .ok (["out"] ++ ["gpt_prompt.txt"], fs1) ∧
      fs1.lookupFile (["out"] ++ ["gpt_prompt.txt"]) =
        some (.text (String.intercalate "\n"
          (gpt_prompt_lines true false (["out"] ++ ["solution"]) (["out"] ++ ["sharepoint"])))) ∧
      ("- PowerPlatform ソリューション展開フォルダ: " ++ pathStr (["out"] ++ ["solution"]))
        ∈ gpt_prompt_lines true false (["out"] ++ ["solution"]) (["out"] ++ ["sharepoint"]) ∧
      "- (sharepoint フォルダがまだ生成されていません)"
        ∈ gpt_prompt_lines true false (["out"] ++ ["solution"]) (["out"] ++ ["sharepoint"]) ∧
      generate_gpt_prompt fs1 ["out"] = .ok (["out"] ++ ["gpt_prompt.txt"], fs1) :=
  generate_gpt_prompt_solution_only ⟨[], [["out"], ["out", "solution"]]⟩ ["out"]
    (by decide) (by decide) (by decide)

/-- C2, counterexample: on an archive whose `CanvasApps` folder holds a
valid embedded `.msapp` package, `unzip_solution` succeeds but the solution
directory does not hold exactly the archive's entries: the secondary
extraction adds files below `CanvasApps/app_extracted/` (and a pre-existing
stale file below `solution/` also survives), so the claim as stated fails. -/
theorem unzip_solution_exactness_cex :
    unzip_solution cexFS0 ["z"] ["out"] = .ok (["out", "solution"], cexResultFS) ∧
    ¬ contentsExactly cexResultFS ["out", "solution"] cexEntries := by
  refine ⟨rfl, ?_⟩
  intro h
  obtain ⟨-, h2⟩ := h
  have hm : ((["out", "solution", "CanvasApps", "app_extracted", "f"] : FPath),
      Content.text "inner") ∈ cexResultFS.files := by
    rw [show cexResultFS.files =
      [(["out", "solution", "CanvasApps", "app_extracted", "f"], Content.text "inner"),
       (["out", "solution", "CanvasApps", "app.msapp"],
         Content.zip [(["f"], Content.text "inner")]),
       (["z"], Content.zip cexEntries),
       (["out", "solution", "junk.txt"], Content.text "old")] from rfl]
    exact List.Mem.head _
  have hpre : (["out", "solution"] : FPath) <+:
      ["out", "solution", "CanvasApps", "app_extracted", "f"] := by
    exact ⟨["CanvasApps", "app_extracted", "f"], rfl⟩
  obtain ⟨n, hn, hp⟩ := h2 _ _ hm hpre
  have hn2 : n = ["CanvasApps", "app_extracted", "f"] := by
    have := hp.symm
    simpa using this
  subst hn2
  simp [cexEntries] at hn

/-- C2, amended: restricted to archives with nonempty, pairwise-distinct
entry names none of which lies at or under a `CanvasApps` folder (so no
secondary `.msapp` extraction fires), and to an output root with no
pre-existing file at or below `solution/` and no pre-existing directory at
or below its `CanvasApps` subpath, `unzip_solution` produces a `solution/`
directory holding exactly the archive's entries path-for-path, and a second
identical call returns the very same filesystem state. -/
theorem unzip_solution_exact_and_idempotent (fs : FS) (z root : FPath)
    (es : List (FPath × Content))
    (hz : fs.lookupFile z = some (.zip es))
    (hnodup : (es.map Prod.fst).Nodup)
    (hne : ∀ e ∈ es, e.1 ≠ ([] : FPath))
    (hcanvas : ∀ e ∈ es, ∀ t : FPath, e.1 ≠ "CanvasApps" :: t)
    (hfresh : ∀ e ∈ fs.files, ¬((root ++ ["solution"]) <+: e.1))
    (hdfresh : ∀ d ∈ fs.dirs, ¬((root ++ ["solution"] ++ ["CanvasApps"]) <+: d))
    (hmk : ∀ q ∈ pathPrefixes (root ++ ["solution"]), fs.fileExists q = false) :
    ∃ fs1, unzip_solution fs z root = .ok (root ++ ["solution"], fs1) ∧
      fs1.files = (es.map (fun e => (root ++ ["solution"] ++ e.1, e.2))).reverse
        ++ fs.files ∧
      contentsExactly fs1 (root ++ ["solution"]) es ∧
      unzip_solution fs1 z root = .ok (root ++ ["solution"], fs1) := by
  have hpe : fs.pathExists z = true := by
    unfold FS.pathExists FS.fileExists
    rw [hz]
    rfl
  obtain ⟨fsm, hgo, hfilesm, hdirall, hdirchar, hdirmono⟩ :=
    makedirsGo_ok_spec (pathPrefixes (root ++ ["solution"])) fs hmk
  have hmk2 : fs.makedirs (root ++ ["solution"]) = .ok fsm := hgo
  have hopen : fsm.openZip z = .ok es := by
    unfold FS.openZip
    rw [show fsm.lookupFile z = fs.lookupFile z from
      FS.lookupFile_eq_of_files_eq hfilesm z, hz]
  have hrebnodup :
      ((es.map (fun e => (root ++ ["solution"] ++ e.1, e.2))).map Prod.fst).Nodup := by
    rw [List.map_map]
    have hmapeq : (Prod.fst ∘ fun e : FPath × Content =>
        (root ++ ["solution"] ++ e.1, e.2)) =
        (fun n : FPath => root ++ ["solution"] ++ n) ∘ Prod.fst := rfl
    rw [hmapeq, ← List.map_map]
    refine List.Nodup.map ?_ hnodup
    intro a b hab
    exact List.append_cancel_left hab
  have hfilterfs : fs.files.filter (fun q =>
      !((es.map (fun e => (root ++ ["solution"] ++ e.1, e.2))).any
        (fun e => e.1 == q.1))) = fs.files := by
    rw [List.filter_eq_self]
    intro q hq
    rw [Bool.not_eq_true', List.any_eq_false]
    intro x hx hxq
    obtain ⟨e0, _, rfl⟩ := List.mem_map.mp hx
    have hxq2 : root ++ ["solution"] ++ e0.1 = q.1 := by simpa using hxq
    exact hfresh q hq (hxq2 ▸ List.prefix_append _ _)
  have hfs2files : (fsm.extractAll (root ++ ["solution"]) es).files =
      (es.map (fun e => (root ++ ["solution"] ++ e.1, e.2))).reverse ++ fs.files := by
    rw [extractAll_files, insertAllList_decomp, insertAllList_nil_nodup _ hrebnodup,
      hfilesm, hfilterfs]
  have hlensol : (root ++ ["solution"] : FPath).length = root.length + 1 := by simp
  have hlencanvas : (root ++ ["solution"] ++ ["CanvasApps"] : FPath).length =
      root.length + 2 := by simp
  have hcanvasfalse : ∀ g : FS,
      g.files = (es.map (fun e => (root ++ ["solution"] ++ e.1, e.2))).reverse
        ++ fs.files →
      g.dirs = fsm.dirs →
      g.pathExists (root ++ ["solution"] ++ ["CanvasApps"]) = false := by
    intro g hgf hgd
    unfold FS.pathExists
    rw [Bool.or_eq_false_iff]
    constructor
    · unfold FS.fileExists FS.lookupFile
      rw [hgf, lookup_none_of_forall_ne ?_]
      · rfl
      intro e he heq
      rcases List.mem_append.mp he with he1 | he1
      · rw [List.mem_reverse] at he1
        obtain ⟨x, hxmem, rfl⟩ := List.mem_map.mp he1
        have : x.1 = ["CanvasApps"] := List.append_cancel_left heq
        exact hcanvas x hxmem [] this
      · refine hfresh e he1 ?_
        rw [heq]
        exact List.prefix_append (root ++ ["solution"]) ["CanvasApps"]
    · cases hb : g.dirExists (root ++ ["solution"] ++ ["CanvasApps"]) with
      | false => rfl
      | true =>
        exfalso
        rw [FS.dirExists_iff, hgf, hgd] at hb
        rcases hb with hb | ⟨e, he, hbpre, hblen⟩ | ⟨d, hd, hbpre, hblen⟩
        · rcases hdirchar _ hb with h1 | h1
          · exact hdfresh _ h1 (List.prefix_refl _)
          · have := mem_pathPrefixes_length_le h1
            omega
        · rcases List.mem_append.mp he with he1 | he1
          · rw [List.mem_reverse] at he1
            obtain ⟨x, hxmem, rfl⟩ := List.mem_map.mp he1
            have hpre2 : (["CanvasApps"] : FPath) <+: x.1 :=
              (List.prefix_append_right_inj (root ++ ["solution"])).mp hbpre
            obtain ⟨t, ht⟩ := hpre2
            exact hcanvas x hxmem t ht.symm
          · exact hfresh e he1
              (((List.prefix_append (root ++ ["solution"]) ["CanvasApps"])).trans hbpre)
        · rcases hdirchar _ hd with h1 | h1
          · exact hdfresh _ h1 hbpre
          · have h2 := mem_pathPrefixes_length_le h1
            have h3 := hbpre.length_le
            omega
  have hc2 := hcanvasfalse (fsm.extractAll (root ++ ["solution"]) es) hfs2files
    (FS.extractAll_dirs es fsm (root ++ ["solution"]))
  have hres1 : unzip_solution fs z root =
      .ok (root ++ ["solution"], fsm.extractAll (root ++ ["solution"]) es) := by
    simp only [unzip_solution, hpe, hmk2, hopen, hc2, if_true,
      if_neg Bool.false_ne_true]
  have hexact : contentsExactly (fsm.extractAll (root ++ ["solution"]) es)
      (root ++ ["solution"]) es := by
    constructor
    · intro n c hm
      unfold FS.lookupFile
      rw [hfs2files]
      refine lookup_append_some (lookup_of_mem_nodup ?_ ?_)
      · rw [List.map_reverse]
        exact List.nodup_reverse.mpr hrebnodup
      · rw [List.mem_reverse]
        exact List.mem_map.mpr ⟨(n, c), hm, rfl⟩
    · intro p c hmem hpre
      rw [hfs2files] at hmem
      rcases List.mem_append.mp hmem with h1 | h1
      · rw [List.mem_reverse] at h1
        obtain ⟨x, hxmem, hxeq⟩ := List.mem_map.mp h1
        refine ⟨x.1, ?_, ?_⟩
        · have hc : x.2 = c := congrArg Prod.snd hxeq
          rw [← hc]
          exact hxmem
        · exact (congrArg Prod.fst hxeq).symm
      · exact absurd hpre (hfresh _ h1)
  have hlookz2 : (fsm.extractAll (root ++ ["solution"]) es).lookupFile z =
      some (.zip es) := by
    unfold FS.lookupFile
    rw [hfs2files, lookup_append_none ?_]
    · exact hz
    refine lookup_none_of_forall_ne ?_
    intro e he heq
    rw [List.mem_reverse] at he
    obtain ⟨x, hxmem, rfl⟩ := List.mem_map.mp he
    have hzmem := lookup_some_mem hz
    exact hfresh _ hzmem (heq ▸ List.prefix_append _ _)
  have hpe2 : (fsm.extractAll (root ++ ["solution"]) es).pathExists z = true := by
    unfold FS.pathExists FS.fileExists
    rw [hlookz2]
    rfl
  have hopen2 : (fsm.extractAll (root ++ ["solution"]) es).openZip z = .ok es := by
    unfold FS.openZip
    rw [hlookz2]
  have hmk4 : ∀ q ∈ pathPrefixes (root ++ ["solution"]),
      (fsm.extractAll (root ++ ["solution"]) es).fileExists q = false := by
    intro q hq
    rw [FS.fileExists_false_iff]
    unfold FS.lookupFile
    rw [hfs2files, lookup_append_none ?_]
    · have hq0 := (FS.fileExists_false_iff fs q).mp (hmk q hq)
      unfold FS.lookupFile at hq0
      exact hq0
    refine lookup_none_of_forall_ne ?_
    intro e he heq
    rw [List.mem_reverse] at he
    obtain ⟨x, hxmem, rfl⟩ := List.mem_map.mp he
    have hql := mem_pathPrefixes_length_le hq
    have hxne := hne x hxmem
    have hxlen : x.1.length ≠ 0 := by
      intro h0
      exact hxne (List.eq_nil_of_length_eq_zero h0)
    have := congrArg List.length heq
    simp only [List.length_append] at this hql
    simp only [List.length_cons, List.length_nil] at this hql
    omega
  have hdir4 : ∀ q ∈ pathPrefixes (root ++ ["solution"]),
      (fsm.extractAll (root ++ ["solution"]) es).dirExists q = true := by
    intro q hq
    have hq1 := hdirall q hq
    rw [FS.dirExists_iff] at hq1 ⊢
    rw [hfs2files, FS.extractAll_dirs]
    rcases hq1 with h1 | ⟨e, he, h2⟩ | h1
    · exact .inl h1
    · rw [hfilesm] at he
      exact .inr (.inl ⟨e, List.mem_append_right _ he, h2⟩)
    · exact .inr (.inr h1)
  have hgo2 : (fsm.extractAll (root ++ ["solution"]) es).makedirs
      (root ++ ["solution"]) = .ok (fsm.extractAll (root ++ ["solution"]) es) :=
    makedirsGo_all_exist _ _ (fun q hq => ⟨hmk4 q hq, hdir4 q hq⟩)
  have hextract2 : (fsm.extractAll (root ++ ["solution"]) es).extractAll
      (root ++ ["solution"]) es = fsm.extractAll (root ++ ["solution"]) es := by
    refine FS.ext2 ?_ (FS.extractAll_dirs ..)
    rw [extractAll_files, insertAllList_decomp, insertAllList_nil_nodup _ hrebnodup,
      hfs2files, List.filter_append]
    have hfilrev : ((es.map (fun e => (root ++ ["solution"] ++ e.1, e.2))).reverse).filter
        (fun q => !((es.map (fun e => (root ++ ["solution"] ++ e.1, e.2))).any
          (fun e => e.1 == q.1))) = [] := by
      rw [List.filter_eq_nil_iff]
      intro a ha
      rw [List.mem_reverse] at ha
      intro hcontra
      have hcontra2 : (!((es.map (fun e => (root ++ ["solution"] ++ e.1, e.2))).any
          (fun e => e.1 == a.1))) = true := hcontra
      rw [Bool.not_eq_true', List.any_eq_false] at hcontra2
      have hself := hcontra2 a ha
      simp at hself
    rw [hfilrev, hfilterfs, List.nil_append]
  have hc3 := hcanvasfalse (fsm.extractAll (root ++ ["solution"]) es) hfs2files
    (FS.extractAll_dirs es fsm (root ++ ["solution"]))
  have hres2 : unzip_solution (fsm.extractAll (root ++ ["solution"]) es) z root =
      .ok (root ++ ["solution"], fsm.extractAll (root ++ ["solution"]) es) := by
    simp only [unzip_solution, hpe2, hgo2, hopen2, hextract2, hc3, if_true,
      if_neg Bool.false_ne_true]
  exact ⟨fsm.extractAll (root ++ ["solution"]) es, hres1, hfs2files, hexact, hres2⟩

theorem unzip_solution_exact_and_idempotent_witness :
    ∃ fs1, unzip_solution ⟨[(["z"], .zip [(["a.txt"], .text "x")])], []⟩ ["z"] ["out"] =
        .ok (["out"] ++ ["solution"], fs1) ∧
      fs1.files = ([(["a.txt"], Content.text "x")].map
          (fun e => (["out"] ++ ["solution"] ++ e.1, e.2))).reverse
        ++ [(["z"], Content.zip [(["a.txt"], Content.text "x")])] ∧
      contentsExactly fs1 (["out"] ++ ["solution"]) [(["a.txt"], Content.text "x")] ∧
      unzip_solution fs1 ["z"] ["out"] = .ok (["out"] ++ ["solution"], fs1) :=
  unzip_solution_exact_and_idempotent
    ⟨[(["z"], .zip [(["a.txt"], .text "x")])], []⟩ ["z"] ["out"]
    [(["a.txt"], .text "x")] rfl (by simp) (by decide)
    (by
      intro e he t heq
      rw [List.mem_singleton] at he
      subst he
      simp at heq)
    (by
      intro e he
      rw [List.mem_singleton] at he
      subst he
      decide)
    (by simp)
    (by decide)
